import Mathlib

/-!
# BonkArena — verification of the on-chain leaderboard core

The repository ships the TypeScript tests, deploy script and README of the
BonkArena Anchor program; the Rust program itself is not part of the source
tree.  The definitions below therefore embed the ledger state machine
described by the specification (Leaderboard, GameSession, ranking engine,
key derivation, settlement), with the byte-level key computation taken from
the client-side reimplementation in the test suite
(`tests/bonk_arena.ts`, "Complete game flow" / "Can start game").
Machine integers are modelled as `Nat`/`Int`; the Keccak-256 primitive is an
external collaborator and is passed in as an abstract byte function `H`.
-/

namespace BonkArena

/-- Modelled from the spec: a leaderboard entry — player identity (a public
key, modelled as a natural number), score, display name, claimed flag. -/
structure PlayerEntry where
  address : Nat
  score : Nat
  name : String
  claimed : Bool
deriving Repr, DecidableEq

/-- Modelled from the spec: the singleton `Leaderboard` account — owner,
fee/ratio configuration, prize distribution, 32-byte secret, pool balances
and the ranking table (capacity 10). -/
structure Leaderboard where
  owner : Nat
  entryFee : Nat
  prizeRatio : Nat
  commissionRatio : Nat
  prizeDistribution : List Nat
  secretKey : List Nat
  prizePool : Nat
  commissionPool : Nat
  players : List PlayerEntry
deriving Repr, DecidableEq

/-- Modelled from the spec: the per-player `GameSession` record.  Its stored
fields are exactly the player identity, display name, start time and
completion flag — the derived game key is not among them. -/
structure GameSession where
  playerAddress : Nat
  name : String
  startTime : Int
  gameCompleted : Bool
deriving Repr, DecidableEq

/-- Modelled from the spec: the error taxonomy of §7. -/
inductive GameError where
  | Unauthorized
  | InvalidConfiguration
  | InsufficientFunds
  | SessionAlreadyActive
  | SessionExpired
  | SessionAlreadyCompleted
  | NoActiveSession
  | InvalidGameKey
  | NotEligible
  | AlreadyClaimed
deriving Repr, DecidableEq

/-- The world a transaction sees: the leaderboard account, the per-player
session accounts, the external fund ledger (association list of balances)
and the custody token-pool balance. -/
structure World where
  lb : Leaderboard
  sessions : List (Nat × GameSession)
  balances : List (Nat × Nat)
  custody : Nat
deriving Repr, DecidableEq

/-- Balance of an identity in the fund ledger (0 when absent). -/
def getBal (bs : List (Nat × Nat)) (who : Nat) : Nat :=
  match bs.find? (fun x => x.1 == who) with
  | some x => x.2
  | none => 0

/-- Overwrite (or append) an identity's balance in the fund ledger. -/
def setBal : List (Nat × Nat) → Nat → Nat → List (Nat × Nat)
  | [], who, amt => [(who, amt)]
  | (k, v) :: rest, who, amt =>
      if k = who then (who, amt) :: rest else (k, v) :: setBal rest who amt

/-- The session account of a player, when one exists. -/
def getSession (ss : List (Nat × GameSession)) (who : Nat) : Option GameSession :=
  (ss.find? (fun x => x.1 == who)).map (fun x => x.2)

/-- Overwrite (or create) a player's session account. -/
def setSession : List (Nat × GameSession) → Nat → GameSession → List (Nat × GameSession)
  | [], who, s => [(who, s)]
  | (k, v) :: rest, who, s =>
      if k = who then (who, s) :: rest else (k, v) :: setSession rest who s

/-- Little-endian byte serialization of a 64-bit signed timestamp, as produced
by `writeBigInt64LE` in the tests: two's complement modulo 2^64, 8 bytes. -/
def i64ToLeBytes (t : Int) : List Nat :=
  let u : Nat := (t % ((2 : Int) ^ 64)).toNat
  (List.range 8).map (fun i => u / 2 ^ (8 * i) % 256)

/-- 32-byte serialization of a player identity (a 256-bit public key modelled
as a natural number, serialized little-endian as `toBuffer` yields its bytes). -/
def identityBytes (p : Nat) : List Nat :=
  (List.range 32).map (fun i => p / 2 ^ (8 * i) % 256)

/-- Key derivation, from the client-side computation in the test suite
(part_000 lines 310-320): hash of player identity bytes ‖ start time as
8 little-endian bytes ‖ secret bytes.  `H` is the Keccak-256 collaborator. -/
def deriveGameKey (H : List Nat → List Nat) (player : List Nat) (startTime : Int)
    (secret : List Nat) : List Nat :=
  H (player ++ i64ToLeBytes startTime ++ secret)

/-- Ranking engine, sorted insertion (spec §4.4): walk past entries whose
score is at least the new score, so that earlier submissions rank ahead of
later equal scores, and place the new entry before the first strictly lower
one. -/
def insertSorted (e : PlayerEntry) : List PlayerEntry → List PlayerEntry
  | [] => [e]
  | p :: rest => if e.score ≤ p.score then p :: insertSorted e rest else e :: p :: rest

/-- Ranking engine, capacity-10 insertion (spec §4.4): below capacity, insert
in order; at capacity, evict the lowest-ranked (last) entry only when the new
score is strictly greater, otherwise leave the table unchanged. -/
def insertEntry (players : List PlayerEntry) (e : PlayerEntry) : List PlayerEntry :=
  if players.length < 10 then insertSorted e players
  else
    match players.getLast? with
    | none => insertSorted e players
    | some last => if last.score < e.score then insertSorted e players.dropLast else players

/-- Set the claimed flag of the first entry owned by `caller`. -/
def markClaimed (caller : Nat) : List PlayerEntry → List PlayerEntry
  | [] => []
  | p :: rest =>
      if p.address = caller then { p with claimed := true } :: rest
      else p :: markClaimed caller rest

/-- 0-based rank and entry of the first table entry owned by `caller`. -/
def findEntryIdx (caller : Nat) : List PlayerEntry → Option (Nat × PlayerEntry)
  | [] => none
  | p :: rest =>
      if p.address = caller then some (0, p)
      else (findEntryIdx caller rest).map (fun x => (x.1 + 1, x.2))

/-- Modelled from the spec (§4.1): the `initialize` operation validates the
configuration (positive entry fee, ratios summing to 100, distribution
summing to at most 100 with at most 10 payable ranks) and persists it with
empty pools and an empty table; the payer becomes the owner. -/
def initLeaderboard (payer entryFee prizeRatio commissionRatio : Nat)
    (dist : List Nat) : Except GameError Leaderboard :=
  if 0 < entryFee ∧ prizeRatio ≤ 100 ∧ commissionRatio = 100 - prizeRatio ∧
      dist.sum ≤ 100 ∧ dist.length ≤ 10 then
    .ok { owner := payer, entryFee := entryFee, prizeRatio := prizeRatio,
          commissionRatio := commissionRatio, prizeDistribution := dist,
          secretKey := List.replicate 32 0, prizePool := 0, commissionPool := 0,
          players := [] }
  else .error .InvalidConfiguration

/-- Modelled from the spec (§4.1): `set_secret_key` is owner-only and
overwrites the 32-byte secret atomically. -/
def setSecretKey (lb : Leaderboard) (caller : Nat) (newSecret : List Nat) :
    Except GameError Leaderboard :=
  if caller = lb.owner then .ok { lb with secretKey := newSecret }
  else .error .Unauthorized

/-- `set_secret_key` lifted to the world. -/
def setSecretKeyW (w : World) (caller : Nat) (newSecret : List Nat) :
    Except GameError World :=
  match setSecretKey w.lb caller newSecret with
  | .ok lb => .ok { w with lb := lb }
  | .error e => .error e

/-- Whether the player has an existing incomplete session. -/
def hasOpenSession (ss : List (Nat × GameSession)) (who : Nat) : Bool :=
  match getSession ss who with
  | some s => !s.gameCompleted
  | none => false

/-- Modelled from the spec (§4.2): `start_game` rejects an open session,
debits the entry fee into custody, splits it as
`prize_pool += fee * prize_ratio / 100` with the remainder to the commission
pool, and creates the session with `game_completed = false`. -/
def startGame (w : World) (caller : Nat) (name : String) (now : Int) :
    Except GameError World :=
  if hasOpenSession w.sessions caller then .error .SessionAlreadyActive
  else if getBal w.balances caller < w.lb.entryFee then .error .InsufficientFunds
  else
    let prizeAdd := w.lb.entryFee * w.lb.prizeRatio / 100
    let commAdd := w.lb.entryFee - prizeAdd
    .ok { w with
      balances := setBal w.balances caller (getBal w.balances caller - w.lb.entryFee),
      custody := w.custody + w.lb.entryFee,
      lb := { w.lb with prizePool := w.lb.prizePool + prizeAdd,
                        commissionPool := w.lb.commissionPool + commAdd },
      sessions := setSession w.sessions caller
        { playerAddress := caller, name := name, startTime := now, gameCompleted := false } }

/-- Modelled from the spec (§4.4): `log_score` requires an open, unexpired
session (10-minute limit), recomputes the game key from the stored start
time, the caller identity and the current secret, compares it with the
submitted proof, then inserts `Player: <name>` with the score through the
ranking engine and marks the session completed. -/
def logScore (H : List Nat → List Nat) (w : World) (caller score : Nat)
    (proofKey : List Nat) (now : Int) : Except GameError World :=
  match getSession w.sessions caller with
  | none => .error .NoActiveSession
  | some s =>
    if s.gameCompleted then .error .SessionAlreadyCompleted
    else if 600 < now - s.startTime then .error .SessionExpired
    else if proofKey ≠ deriveGameKey H (identityBytes caller) s.startTime w.lb.secretKey then
      .error .InvalidGameKey
    else
      let e : PlayerEntry :=
        { address := caller, score := score, name := "Player: " ++ s.name, claimed := false }
      .ok { w with
        lb := { w.lb with players := insertEntry w.lb.players e },
        sessions := setSession w.sessions caller { s with gameCompleted := true } }

/-- Modelled from the spec (§4.5, pool-draining variant): owner-only; the
entire custody balance is transferred back to the owner and both pools are
reset to zero. -/
def endGameDrain (w : World) (caller : Nat) : Except GameError World :=
  if caller = w.lb.owner then
    .ok { w with
      custody := 0,
      balances := setBal w.balances w.lb.owner (getBal w.balances w.lb.owner + w.custody),
      lb := { w.lb with prizePool := 0, commissionPool := 0 } }
  else .error .Unauthorized

/-- Modelled from the spec (§4.5, session-scoped variant exercised by
`tests/bonk_arena.ts`): `end_game(score)` closes the caller's open session
without any proof key, marks it completed and inserts the caller's score
through the ranking engine. -/
def endGameSession (w : World) (caller score : Nat) : Except GameError World :=
  match getSession w.sessions caller with
  | none => .error .NoActiveSession
  | some s =>
    if s.gameCompleted then .error .SessionAlreadyCompleted
    else
      let e : PlayerEntry :=
        { address := caller, score := score, name := s.name, claimed := false }
      .ok { w with
        lb := { w.lb with players := insertEntry w.lb.players e },
        sessions := setSession w.sessions caller { s with gameCompleted := true } }

/-- Modelled from the spec (§4.6): `claim_prize` locates the caller's entry,
rejects an already-claimed entry with `AlreadyClaimed` and a rank beyond the
distribution with `NotEligible`, pays `prize_pool * distribution[rank] / 100`
from custody and sets the claimed flag. -/
def claimPrize (w : World) (caller : Nat) : Except GameError World :=
  match findEntryIdx caller w.lb.players with
  | none => .error .NotEligible
  | some r =>
    if r.2.claimed then .error .AlreadyClaimed
    else if r.1 < w.lb.prizeDistribution.length then
      if w.lb.prizePool * w.lb.prizeDistribution.getD r.1 0 / 100 ≤ w.custody then
        .ok { w with
          lb := { w.lb with players := markClaimed caller w.lb.players },
          custody := w.custody - w.lb.prizePool * w.lb.prizeDistribution.getD r.1 0 / 100,
          balances := setBal w.balances caller
            (getBal w.balances caller + w.lb.prizePool * w.lb.prizeDistribution.getD r.1 0 / 100) }
      else .error .InsufficientFunds
    else .error .NotEligible

/-- Modelled from the spec (§4.7): `add_prize_pool` requires a positive
amount, debits the contributor and credits the full amount to the prize pool
with no commission split. -/
def addPrizePool (w : World) (caller amount : Nat) : Except GameError World :=
  if amount = 0 then .error .InvalidConfiguration
  else if getBal w.balances caller < amount then .error .InsufficientFunds
  else
    .ok { w with
      balances := setBal w.balances caller (getBal w.balances caller - amount),
      custody := w.custody + amount,
      lb := { w.lb with prizePool := w.lb.prizePool + amount } }

/-- What an account fetch of the leaderboard returns to any caller, as
exercised by the tests (part_000 lines 306-320 and 235-264 read `players`,
`prizePool`, `commissionPool` and `secretKey` from the fetched account). -/
structure LeaderboardView where
  entryFee : Nat
  prizeRatio : Nat
  commissionRatio : Nat
  prizeDistribution : List Nat
  prizePool : Nat
  commissionPool : Nat
  players : List PlayerEntry
  secretKey : List Nat
deriving Repr, DecidableEq

/-- The unauthenticated read path over the leaderboard account: the fetch
deserializes every stored field, the secret included. -/
def readLeaderboard (lb : Leaderboard) : LeaderboardView :=
  { entryFee := lb.entryFee, prizeRatio := lb.prizeRatio,
    commissionRatio := lb.commissionRatio, prizeDistribution := lb.prizeDistribution,
    prizePool := lb.prizePool, commissionPool := lb.commissionPool,
    players := lb.players, secretKey := lb.secretKey }

/-- The table is sorted by score in descending order. -/
def sortedDesc (l : List PlayerEntry) : Prop :=
  l.Pairwise (fun a b => b.score ≤ a.score)

instance (l : List PlayerEntry) : Decidable (sortedDesc l) :=
  List.instDecidablePairwise l

/-- Reachable worlds: an initialized deployment (empty table, empty pools,
arbitrary external fund ledger) followed by any sequence of successful
public operations. -/
inductive Reachable : World → Prop where
  | init : ∀ (payer fee pr cr : Nat) (dist : List Nat) (lb : Leaderboard)
      (bs : List (Nat × Nat)),
      initLeaderboard payer fee pr cr dist = .ok lb →
      Reachable { lb := lb, sessions := [], balances := bs, custody := 0 }
  | start : ∀ {w w' : World} {c : Nat} {n : String} {t : Int},
      Reachable w → startGame w c n t = .ok w' → Reachable w'
  | log : ∀ {w w' : World} {H : List Nat → List Nat} {c sc : Nat} {k : List Nat} {t : Int},
      Reachable w → logScore H w c sc k t = .ok w' → Reachable w'
  | endD : ∀ {w w' : World} {c : Nat},
      Reachable w → endGameDrain w c = .ok w' → Reachable w'
  | endS : ∀ {w w' : World} {c sc : Nat},
      Reachable w → endGameSession w c sc = .ok w' → Reachable w'
  | claim : ∀ {w w' : World} {c : Nat},
      Reachable w → claimPrize w c = .ok w' → Reachable w'
  | add : ∀ {w w' : World} {c a : Nat},
      Reachable w → addPrizePool w c a = .ok w' → Reachable w'
  | secret : ∀ {w w' : World} {c : Nat} {s : List Nat},
      Reachable w → setSecretKeyW w c s = .ok w' → Reachable w'

/-! ## Ranking-engine lemmas -/

theorem mem_insertSorted {x e : PlayerEntry} {l : List PlayerEntry}
    (h : x ∈ insertSorted e l) : x = e ∨ x ∈ l := by
  induction l with
  | nil => simpa [insertSorted] using h
  | cons p rest ih =>
    rw [insertSorted] at h
    by_cases hc : e.score ≤ p.score
    · rw [if_pos hc] at h
      rcases List.mem_cons.mp h with h1 | h1
      · exact Or.inr (List.mem_cons.mpr (Or.inl h1))
      · rcases ih h1 with h2 | h2
        · exact Or.inl h2
        · exact Or.inr (List.mem_cons.mpr (Or.inr h2))
    · rw [if_neg hc] at h
      rcases List.mem_cons.mp h with h1 | h1
      · exact Or.inl h1
      · exact Or.inr h1

theorem self_mem_insertSorted (e : PlayerEntry) (l : List PlayerEntry) :
    e ∈ insertSorted e l := by
  induction l with
  | nil => simp [insertSorted]
  | cons p rest ih =>
    simp only [insertSorted]
    split
    · exact List.mem_cons_of_mem _ ih
    · exact List.mem_cons_self _ _

theorem length_insertSorted (e : PlayerEntry) (l : List PlayerEntry) :
    (insertSorted e l).length = l.length + 1 := by
  induction l with
  | nil => rfl
  | cons p rest ih =>
    simp only [insertSorted]
    split <;> simp [ih]

theorem sortedDesc_insertSorted {l : List PlayerEntry} (e : PlayerEntry)
    (h : sortedDesc l) : sortedDesc (insertSorted e l) := by
  induction l with
  | nil => simp [insertSorted, sortedDesc]
  | cons p rest ih =>
    rcases List.pairwise_cons.mp h with ⟨hp, hrest⟩
    simp only [insertSorted]
    split
    · refine List.pairwise_cons.mpr ⟨?_, ih hrest⟩
      intro x hx
      rcases mem_insertSorted hx with h' | h'
      · subst h'; assumption
      · exact hp x h'
    · refine List.pairwise_cons.mpr ⟨?_, h⟩
      intro x hx
      rcases List.mem_cons.mp hx with h' | h'
      · subst h'; omega
      · exact le_trans (hp x h') (by omega)

theorem sortedDesc_dropLast {l : List PlayerEntry} (h : sortedDesc l) :
    sortedDesc l.dropLast :=
  List.Pairwise.sublist (List.dropLast_sublist l) h

theorem insertEntry_invariant {l : List PlayerEntry} (e : PlayerEntry)
    (hs : sortedDesc l) (hlen : l.length ≤ 10) :
    sortedDesc (insertEntry l e) ∧ (insertEntry l e).length ≤ 10 := by
  by_cases hfull : l.length < 10
  · rw [insertEntry, if_pos hfull]
    exact ⟨sortedDesc_insertSorted e hs, by rw [length_insertSorted]; omega⟩
  · have hlen10 : l.length = 10 := by omega
    have hne : l ≠ [] := by
      intro h; rw [h] at hlen10; simp at hlen10
    cases hlast : l.getLast? with
    | none => exact absurd (List.getLast?_eq_none_iff.mp hlast) hne
    | some last =>
      simp only [insertEntry, if_neg hfull, hlast]
      by_cases hcmp : last.score < e.score
      · rw [if_pos hcmp]
        refine ⟨sortedDesc_insertSorted e (sortedDesc_dropLast hs), ?_⟩
        rw [length_insertSorted, List.length_dropLast]
        omega
      · rw [if_neg hcmp]
        exact ⟨hs, hlen⟩

theorem markClaimed_map_score (caller : Nat) (l : List PlayerEntry) :
    (markClaimed caller l).map PlayerEntry.score = l.map PlayerEntry.score := by
  induction l with
  | nil => rfl
  | cons p rest ih =>
    simp only [markClaimed]
    split <;> simp [ih]

theorem markClaimed_length (caller : Nat) (l : List PlayerEntry) :
    (markClaimed caller l).length = l.length := by
  have h := markClaimed_map_score caller l
  have := congrArg List.length h
  simpa using this

theorem sortedDesc_iff_map (l : List PlayerEntry) :
    sortedDesc l ↔ (l.map PlayerEntry.score).Pairwise (fun a b => b ≤ a) := by
  unfold sortedDesc
  rw [List.pairwise_map]

theorem sortedDesc_markClaimed {l : List PlayerEntry} (caller : Nat)
    (h : sortedDesc l) : sortedDesc (markClaimed caller l) := by
  rw [sortedDesc_iff_map] at h ⊢
  rw [markClaimed_map_score]
  exact h

/-! ## Per-operation effect lemmas on the ranking table -/

theorem startGame_players {w w' : World} {c : Nat} {n : String} {t : Int}
    (h : startGame w c n t = .ok w') : w'.lb.players = w.lb.players := by
  unfold startGame at h
  split at h
  · exact absurd h (by simp)
  · split at h
    · exact absurd h (by simp)
    · cases h; rfl

theorem logScore_players {H : List Nat → List Nat} {w w' : World} {c sc : Nat}
    {k : List Nat} {t : Int} (h : logScore H w c sc k t = .ok w') :
    ∃ e, w'.lb.players = insertEntry w.lb.players e := by
  unfold logScore at h
  split at h
  · exact absurd h (by simp)
  · split at h
    · exact absurd h (by simp)
    · split at h
      · exact absurd h (by simp)
      · split at h
        · exact absurd h (by simp)
        · cases h; exact ⟨_, rfl⟩

theorem endGameDrain_players {w w' : World} {c : Nat}
    (h : endGameDrain w c = .ok w') : w'.lb.players = w.lb.players := by
  unfold endGameDrain at h
  split at h
  · cases h; rfl
  · exact absurd h (by simp)

theorem endGameSession_players {w w' : World} {c sc : Nat}
    (h : endGameSession w c sc = .ok w') :
    ∃ e, w'.lb.players = insertEntry w.lb.players e := by
  unfold endGameSession at h
  split at h
  · exact absurd h (by simp)
  · split at h
    · exact absurd h (by simp)
    · cases h; exact ⟨_, rfl⟩

theorem claimPrize_players {w w' : World} {c : Nat}
    (h : claimPrize w c = .ok w') :
    w'.lb.players = markClaimed c w.lb.players := by
  unfold claimPrize at h
  split at h
  · exact absurd h (by simp)
  · split at h
    · exact absurd h (by simp)
    · split at h
      · split at h
        · cases h; rfl
        · exact absurd h (by simp)
      · exact absurd h (by simp)

theorem addPrizePool_players {w w' : World} {c a : Nat}
    (h : addPrizePool w c a = .ok w') : w'.lb.players = w.lb.players := by
  unfold addPrizePool at h
  split at h
  · exact absurd h (by simp)
  · split at h
    · exact absurd h (by simp)
    · cases h; rfl

theorem setSecretKeyW_players {w w' : World} {c : Nat} {s : List Nat}
    (h : setSecretKeyW w c s = .ok w') : w'.lb.players = w.lb.players := by
  unfold setSecretKeyW at h
  cases hx : setSecretKey w.lb c s with
  | ok lb2 =>
    rw [hx] at h
    cases h
    unfold setSecretKey at hx
    split at hx
    · cases hx; rfl
    · cases hx
  | error e =>
    rw [hx] at h
    cases h

theorem initLeaderboard_players {payer fee pr cr : Nat} {dist : List Nat}
    {lb : Leaderboard} (h : initLeaderboard payer fee pr cr dist = .ok lb) :
    lb.players = [] := by
  unfold initLeaderboard at h
  split at h
  · cases h; rfl
  · exact absurd h (by simp)

/-! ## Ledger helper lemmas -/

theorem getSession_setSession_self (ss : List (Nat × GameSession)) (who : Nat)
    (s : GameSession) : getSession (setSession ss who s) who = some s := by
  induction ss with
  | nil => simp [setSession, getSession]
  | cons p rest ih =>
    obtain ⟨k, v⟩ := p
    simp only [setSession]
    by_cases h : k = who
    · rw [if_pos h]
      unfold getSession
      rw [List.find?_cons_of_pos _ (by simp)]
      rfl
    · rw [if_neg h]
      unfold getSession at ih ⊢
      rw [List.find?_cons_of_neg _ (by simp [h])]
      exact ih

theorem getBal_setBal_self (bs : List (Nat × Nat)) (who amt : Nat) :
    getBal (setBal bs who amt) who = amt := by
  induction bs with
  | nil => simp [setBal, getBal]
  | cons p rest ih =>
    obtain ⟨k, v⟩ := p
    simp only [setBal]
    by_cases h : k = who
    · rw [if_pos h]
      unfold getBal
      rw [List.find?_cons_of_pos _ (by simp)]
    · rw [if_neg h]
      unfold getBal at ih ⊢
      rw [List.find?_cons_of_neg _ (by simp [h])]
      exact ih

/-- `log_score` on an open, unexpired session succeeds exactly when the
submitted proof equals the key recomputed from the stored start time, the
caller identity and the current secret. -/
theorem logScore_ok_iff (H : List Nat → List Nat) (w : World) (caller score : Nat)
    (proofKey : List Nat) (now : Int) (s : GameSession)
    (hs : getSession w.sessions caller = some s)
    (hnc : s.gameCompleted = false)
    (hexp : now - s.startTime ≤ 600) :
    (∃ w', logScore H w caller score proofKey now = .ok w') ↔
      proofKey = deriveGameKey H (identityBytes caller) s.startTime w.lb.secretKey := by
  have hlt : ¬ (600 < now - s.startTime) := by omega
  constructor
  · rintro ⟨w', hw⟩
    by_contra hk
    simp only [logScore, hs] at hw
    rw [if_neg (by simp [hnc]), if_neg hlt, if_pos hk] at hw
    cases hw
  · intro hk
    simp only [logScore, hs]
    rw [if_neg (by simp [hnc]), if_neg hlt, if_neg (by simp [hk])]
    exact ⟨_, rfl⟩

/-! ## Claim theorems -/

/-- C2: in every reachable state, the `Leaderboard.players` table is sorted
by score in descending order and contains at most 10 entries; every public
operation (start_game, log_score, end_game in both variants, claim_prize,
add_prize_pool, set_secret_key) preserves both properties, as the induction
over `Reachable` shows case by case. -/
theorem claim_C2 {w : World} (h : Reachable w) :
    sortedDesc w.lb.players ∧ w.lb.players.length ≤ 10 := by
  induction h with
  | init payer fee pr cr dist lb bs hinit =>
    have hp : lb.players = [] := initLeaderboard_players hinit
    constructor
    · show sortedDesc lb.players
      rw [hp]; exact List.Pairwise.nil
    · show lb.players.length ≤ 10
      rw [hp]; simp
  | start hr hop ih =>
    rw [startGame_players hop]; exact ih
  | log hr hop ih =>
    obtain ⟨e, he⟩ := logScore_players hop
    rw [he]; exact insertEntry_invariant e ih.1 ih.2
  | endD hr hop ih =>
    rw [endGameDrain_players hop]; exact ih
  | endS hr hop ih =>
    obtain ⟨e, he⟩ := endGameSession_players hop
    rw [he]; exact insertEntry_invariant e ih.1 ih.2
  | claim hr hop ih =>
    rw [claimPrize_players hop]
    exact ⟨sortedDesc_markClaimed _ ih.1, by rw [markClaimed_length]; exact ih.2⟩
  | add hr hop ih =>
    rw [addPrizePool_players hop]; exact ih
  | secret hr hop ih =>
    rw [setSecretKeyW_players hop]; exact ih

/-- A concrete freshly-initialized world used to witness `claim_C2`. -/
def w0 : World :=
  { lb := { owner := 1, entryFee := 1000000000, prizeRatio := 70,
            commissionRatio := 30, prizeDistribution := [50, 30, 20],
            secretKey := List.replicate 32 0, prizePool := 0, commissionPool := 0,
            players := [] },
    sessions := [], balances := [(1, 2000000000)], custody := 0 }

/-- Witness for C2: the initial world of the deployment exercised by the
tests is reachable, and `claim_C2` applies to it. -/
theorem claim_C2_witness : sortedDesc w0.lb.players ∧ w0.lb.players.length ≤ 10 :=
  claim_C2 (Reachable.init 1 1000000000 70 30 [50, 30, 20] w0.lb [(1, 2000000000)]
    (by rfl))

/-- C1: for every player identity, session start time and secret,
`derive_game_key` equals the hash (the Keccak-256 collaborator `H`) of the
player identity bytes ‖ the start time as 8 little-endian bytes ‖ the secret
bytes, and `log_score` accepts a submitted proof key exactly when it equals
this derived value. -/
theorem claim_C1 (H : List Nat → List Nat) (w : World) (caller score : Nat)
    (proofKey : List Nat) (now : Int) (s : GameSession)
    (hs : getSession w.sessions caller = some s)
    (hnc : s.gameCompleted = false)
    (hexp : now - s.startTime ≤ 600) :
    deriveGameKey H (identityBytes caller) s.startTime w.lb.secretKey
      = H (identityBytes caller ++ i64ToLeBytes s.startTime ++ w.lb.secretKey)
    ∧ ((∃ w', logScore H w caller score proofKey now = .ok w') ↔
        proofKey = deriveGameKey H (identityBytes caller) s.startTime w.lb.secretKey) :=
  ⟨rfl, logScore_ok_iff H w caller score proofKey now s hs hnc hexp⟩

/-- A hash stand-in for the Keccak-256 collaborator, used in witnesses. -/
def Hc : List Nat → List Nat :=
  fun bs => List.replicate 32 (bs.foldl (fun a b => (a + b) % 256) 0)

/-- A concrete open session for player 5 started at time 100. -/
def s1 : GameSession :=
  { playerAddress := 5, name := "P", startTime := 100, gameCompleted := false }

/-- A concrete world with the open session `s1` on the initialized
leaderboard. -/
def w1 : World :=
  { w0 with sessions := [(5, s1)] }

/-- Witness for C1 at the concrete world `w1`. -/
theorem claim_C1_witness :
    deriveGameKey Hc (identityBytes 5) s1.startTime w1.lb.secretKey
      = Hc (identityBytes 5 ++ i64ToLeBytes s1.startTime ++ w1.lb.secretKey)
    ∧ ((∃ w', logScore Hc w1 5 200 (List.replicate 32 7) 100 = .ok w') ↔
        List.replicate 32 7
          = deriveGameKey Hc (identityBytes 5) s1.startTime w1.lb.secretKey) :=
  claim_C1 Hc w1 5 200 (List.replicate 32 7) 100 s1 (by rfl) (by rfl) (by decide)

/-- C4: on an open, unexpired session, `log_score` with a proof key different
from the derived game key fails with `InvalidGameKey` and produces no state
change (the transaction returns only the error), so a retry with the correct
key still succeeds and completes the session. -/
theorem claim_C4 (H : List Nat → List Nat) (w : World) (caller score : Nat)
    (proofKey : List Nat) (now : Int) (s : GameSession)
    (hs : getSession w.sessions caller = some s)
    (hnc : s.gameCompleted = false)
    (hexp : now - s.startTime ≤ 600)
    (hk : proofKey ≠ deriveGameKey H (identityBytes caller) s.startTime w.lb.secretKey) :
    logScore H w caller score proofKey now = .error .InvalidGameKey
    ∧ ∃ w', logScore H w caller score
          (deriveGameKey H (identityBytes caller) s.startTime w.lb.secretKey) now = .ok w'
        ∧ getSession w'.sessions caller = some { s with gameCompleted := true } := by
  have hlt : ¬ (600 < now - s.startTime) := by omega
  constructor
  · simp only [logScore, hs]
    rw [if_neg (by simp [hnc]), if_neg hlt, if_pos hk]
  · simp only [logScore, hs]
    rw [if_neg (by simp [hnc]), if_neg hlt, if_neg (by simp)]
    exact ⟨_, rfl, getSession_setSession_self _ _ _⟩

set_option maxRecDepth 20000 in
/-- Witness for C4 at the concrete world `w1` with an all-zero fake key. -/
theorem claim_C4_witness :
    logScore Hc w1 5 100 (List.replicate 32 0) 100 = .error .InvalidGameKey
    ∧ ∃ w', logScore Hc w1 5 100
          (deriveGameKey Hc (identityBytes 5) s1.startTime w1.lb.secretKey) 100 = .ok w'
        ∧ getSession w'.sessions 5 = some { s1 with gameCompleted := true } :=
  claim_C4 Hc w1 5 100 (List.replicate 32 0) 100 s1 (by rfl) (by rfl) (by decide)
    (by decide)

theorem findEntryIdx_markClaimed (caller : Nat) (l : List PlayerEntry) :
    findEntryIdx caller (markClaimed caller l)
      = (findEntryIdx caller l).map (fun x => (x.1, { x.2 with claimed := true })) := by
  induction l with
  | nil => rfl
  | cons p rest ih =>
    simp only [markClaimed]
    by_cases h : p.address = caller
    · rw [if_pos h]
      simp only [findEntryIdx]
      rw [if_pos h, if_pos h]
      rfl
    · rw [if_neg h]
      simp only [findEntryIdx]
      rw [if_neg h, if_neg h, ih]
      cases findEntryIdx caller rest <;> rfl

/-- C3: on an entry with `claimed = false` whose 0-based rank lies within the
prize distribution (and with sufficient custody), `claim_prize` pays out
exactly `prize_pool * prize_distribution[rank] / 100` (integer division) to
the player and sets the claimed flag; a second `claim_prize` for the same
entry fails with `AlreadyClaimed`, so (the transaction aborting on error) all
balances stay as they were after the first claim. -/
theorem claim_C3 (w : World) (caller rank : Nat) (e : PlayerEntry)
    (hf : findEntryIdx caller w.lb.players = some (rank, e))
    (hc : e.claimed = false)
    (hr : rank < w.lb.prizeDistribution.length)
    (hcust : w.lb.prizePool * w.lb.prizeDistribution.getD rank 0 / 100 ≤ w.custody) :
    ∃ w', claimPrize w caller = .ok w'
      ∧ getBal w'.balances caller
          = getBal w.balances caller + w.lb.prizePool * w.lb.prizeDistribution.getD rank 0 / 100
      ∧ findEntryIdx caller w'.lb.players = some (rank, { e with claimed := true })
      ∧ claimPrize w' caller = .error .AlreadyClaimed := by
  have hstep : claimPrize w caller = .ok
      { w with lb := { w.lb with players := markClaimed caller w.lb.players },
               custody := w.custody - w.lb.prizePool * w.lb.prizeDistribution.getD rank 0 / 100,
               balances := setBal w.balances caller
                 (getBal w.balances caller
                   + w.lb.prizePool * w.lb.prizeDistribution.getD rank 0 / 100) } := by
    simp only [claimPrize, hf]
    rw [if_neg (by simp [hc]), if_pos hr, if_pos hcust]
  have hmark : findEntryIdx caller (markClaimed caller w.lb.players)
      = some (rank, { e with claimed := true }) := by
    rw [findEntryIdx_markClaimed, hf]
    rfl
  refine ⟨_, hstep, getBal_setBal_self _ _ _, hmark, ?_⟩
  simp only [claimPrize, hmark]
  rw [if_pos trivial]

/-- A concrete world holding one unclaimed ranked entry for player 5, a prize
pool of 1000 and matching custody. -/
def w2 : World :=
  { lb := { w0.lb with
      players := [{ address := 5, score := 200, name := "Player: P", claimed := false }],
      prizePool := 1000 },
    sessions := [], balances := [], custody := 1000 }

/-- Witness for C3 at the concrete world `w2`: rank 0 receives
`1000 * 50 / 100 = 500`. -/
theorem claim_C3_witness :
    ∃ w', claimPrize w2 5 = .ok w'
      ∧ getBal w'.balances 5
          = getBal w2.balances 5 + w2.lb.prizePool * w2.lb.prizeDistribution.getD 0 0 / 100
      ∧ findEntryIdx 5 w'.lb.players
          = some (0, { address := 5, score := 200, name := "Player: P", claimed := true })
      ∧ claimPrize w' 5 = .error .AlreadyClaimed :=
  claim_C3 w2 5 0 { address := 5, score := 200, name := "Player: P", claimed := false }
    (by rfl) (by rfl) (by decide) (by decide)

/-- C5: `set_secret_key` succeeds exactly when the caller is the
leaderboard's owner; a non-owner caller fails with `Unauthorized` (the
transaction aborts, so the secret is unchanged), while the owner's call
atomically overwrites the secret. -/
theorem claim_C5 (lb : Leaderboard) (caller : Nat) (s : List Nat) :
    ((∃ lb', setSecretKey lb caller s = .ok lb') ↔ caller = lb.owner)
    ∧ (caller ≠ lb.owner → setSecretKey lb caller s = .error .Unauthorized)
    ∧ (caller = lb.owner →
        setSecretKey lb caller s = .ok { lb with secretKey := s }) := by
  unfold setSecretKey
  by_cases h : caller = lb.owner
  · rw [if_pos h]
    exact ⟨⟨fun _ => h, fun _ => ⟨_, rfl⟩⟩, fun hc => absurd h hc, fun _ => rfl⟩
  · rw [if_neg h]
    refine ⟨⟨?_, fun hc => absurd hc h⟩, fun _ => rfl, fun hc => absurd hc h⟩
    rintro ⟨lb', hl⟩
    cases hl

/-- Witness for C5: owner 1 of `w0` succeeds, caller 2 is rejected. -/
theorem claim_C5_witness :
    (((∃ lb', setSecretKey w0.lb 1 (List.replicate 32 1) = .ok lb') ↔ 1 = w0.lb.owner)
      ∧ ((1 : Nat) ≠ w0.lb.owner →
          setSecretKey w0.lb 1 (List.replicate 32 1) = .error .Unauthorized)
      ∧ ((1 : Nat) = w0.lb.owner →
          setSecretKey w0.lb 1 (List.replicate 32 1)
            = .ok { w0.lb with secretKey := List.replicate 32 1 }))
    ∧ setSecretKey w0.lb 2 (List.replicate 32 1) = .error .Unauthorized :=
  ⟨claim_C5 w0.lb 1 (List.replicate 32 1),
   (claim_C5 w0.lb 2 (List.replicate 32 1)).2.1 (by decide)⟩

/-- Field-level effect of a successful `add_prize_pool`. -/
theorem addPrizePool_ok (w : World) (caller amount : Nat)
    (hpos : 0 < amount) (hbal : amount ≤ getBal w.balances caller) :
    ∃ w', addPrizePool w caller amount = .ok w'
      ∧ w'.lb.prizePool = w.lb.prizePool + amount
      ∧ w'.lb.commissionPool = w.lb.commissionPool
      ∧ getBal w'.balances caller = getBal w.balances caller - amount := by
  have hstep : addPrizePool w caller amount = .ok
      { w with balances := setBal w.balances caller (getBal w.balances caller - amount),
               custody := w.custody + amount,
               lb := { w.lb with prizePool := w.lb.prizePool + amount } } := by
    unfold addPrizePool
    rw [if_neg (by omega), if_neg (by omega)]
  exact ⟨_, hstep, rfl, rfl, getBal_setBal_self _ _ _⟩

/-- C8: with a positive amount covered by the contributor's balance,
`add_prize_pool` debits the contributor and credits the prize pool with the
full amount — `prize_pool = P + amount` exactly, no commission split — and a
repeat call with the same amount (still covered) adds the same amount
again. -/
theorem claim_C8 (w : World) (caller amount P : Nat)
    (hpos : 0 < amount)
    (hbal : amount ≤ getBal w.balances caller)
    (hP : w.lb.prizePool = P) :
    ∃ w', addPrizePool w caller amount = .ok w'
      ∧ w'.lb.prizePool = P + amount
      ∧ w'.lb.commissionPool = w.lb.commissionPool
      ∧ getBal w'.balances caller = getBal w.balances caller - amount
      ∧ (amount ≤ getBal w'.balances caller →
          ∃ w'', addPrizePool w' caller amount = .ok w''
            ∧ w''.lb.prizePool = P + amount + amount) := by
  obtain ⟨w', h1, hp1, hc1, hb1⟩ := addPrizePool_ok w caller amount hpos hbal
  refine ⟨w', h1, by rw [hp1, hP], hc1, hb1, ?_⟩
  intro hbal2
  obtain ⟨w'', h2, hp2, hc2, hb2⟩ := addPrizePool_ok w' caller amount hpos hbal2
  exact ⟨w'', h2, by rw [hp2, hp1, hP]⟩

/-- Witness for C8: contributing 500000 twice to `w0` (owner balance
2000000000, prize pool 0). -/
theorem claim_C8_witness :
    ∃ w', addPrizePool w0 1 500000 = .ok w'
      ∧ w'.lb.prizePool = 0 + 500000
      ∧ w'.lb.commissionPool = w0.lb.commissionPool
      ∧ getBal w'.balances 1 = getBal w0.balances 1 - 500000
      ∧ (500000 ≤ getBal w'.balances 1 →
          ∃ w'', addPrizePool w' 1 500000 = .ok w''
            ∧ w''.lb.prizePool = 0 + 500000 + 500000) :=
  claim_C8 w0 1 500000 0 (by decide) (by decide) (by rfl)

/-- C9: a successful `initialize` with valid parameters persists exactly the
supplied entry fee and prize distribution, and the commission ratio equals
`100 - prize_ratio`, so `prize_ratio + commission_ratio = 100`. -/
theorem claim_C9 (payer fee pr cr : Nat) (dist : List Nat)
    (hfee : 0 < fee) (hpr : pr ≤ 100) (hcr : cr = 100 - pr)
    (hsum : dist.sum ≤ 100) (hlen : dist.length ≤ 10) :
    ∃ lb, initLeaderboard payer fee pr cr dist = .ok lb
      ∧ lb.entryFee = fee
      ∧ lb.prizeDistribution = dist
      ∧ lb.commissionRatio = 100 - pr
      ∧ lb.prizeRatio + lb.commissionRatio = 100 := by
  have hstep : initLeaderboard payer fee pr cr dist = .ok
      { owner := payer, entryFee := fee, prizeRatio := pr, commissionRatio := cr,
        prizeDistribution := dist, secretKey := List.replicate 32 0,
        prizePool := 0, commissionPool := 0, players := [] } := by
    unfold initLeaderboard
    rw [if_pos ⟨hfee, hpr, hcr, hsum, hlen⟩]
  refine ⟨_, hstep, rfl, rfl, hcr, ?_⟩
  show pr + cr = 100
  omega

/-- Witness for C9 at the parameters of the test suite's Scenario A. -/
theorem claim_C9_witness :
    ∃ lb, initLeaderboard 1 1000000000 70 30 [50, 30, 20] = .ok lb
      ∧ lb.entryFee = 1000000000
      ∧ lb.prizeDistribution = [50, 30, 20]
      ∧ lb.commissionRatio = 100 - 70
      ∧ lb.prizeRatio + lb.commissionRatio = 100 :=
  claim_C9 1 1000000000 70 30 [50, 30, 20] (by decide) (by decide) (by decide)
    (by decide) (by decide)

/-- C10: in the session-scoped variant, `end_game(score)` called by the
session owner on an open session takes no proof key at all (its signature has
none, so game-key verification is bypassed), marks the session completed and
inserts an entry with the caller's address and the submitted score into the
(not yet full) leaderboard table. -/
theorem claim_C10 (w : World) (caller score : Nat) (s : GameSession)
    (hs : getSession w.sessions caller = some s)
    (hnc : s.gameCompleted = false)
    (hcap : w.lb.players.length < 10) :
    ∃ w', endGameSession w caller score = .ok w'
      ∧ getSession w'.sessions caller = some { s with gameCompleted := true }
      ∧ ∃ e ∈ w'.lb.players, e.address = caller ∧ e.score = score := by
  simp only [endGameSession, hs]
  rw [if_neg (by simp [hnc])]
  refine ⟨_, rfl, getSession_setSession_self _ _ _, ?_⟩
  show ∃ e ∈ insertEntry w.lb.players
      { address := caller, score := score, name := s.name, claimed := false },
    e.address = caller ∧ e.score = score
  rw [insertEntry, if_pos hcap]
  exact ⟨_, self_mem_insertSorted _ _, rfl, rfl⟩

/-- Witness for C10 at the concrete world `w1` with score 1000. -/
theorem claim_C10_witness :
    ∃ w', endGameSession w1 5 1000 = .ok w'
      ∧ getSession w'.sessions 5 = some { s1 with gameCompleted := true }
      ∧ ∃ e ∈ w'.lb.players, e.address = 5 ∧ e.score = 1000 :=
  claim_C10 w1 5 1000 s1 (by rfl) (by rfl) (by decide)

/-- Formalization of C6 as stated: what the unauthenticated leaderboard read
path returns is independent of the stored secret (the secret would then be
observable only through derived-key verification). -/
def secretNotExposed : Prop :=
  ∀ (lb : Leaderboard) (s : List Nat),
    readLeaderboard { lb with secretKey := s } = readLeaderboard lb

/-- C6 counterexample: the account-fetch read path does expose the secret —
fetching `w0.lb` after overwriting its secret with all ones yields a
different view (its `secretKey` field changes), exactly the read the
complete-game-flow test performs to compute the key client-side. -/
theorem claim_C6_counterexample : ¬ secretNotExposed := by
  intro h
  have h1 := h w0.lb (List.replicate 32 1)
  have h2 := congrArg LeaderboardView.secretKey h1
  have h3 : List.replicate 32 1 = w0.lb.secretKey := h2
  exact absurd h3 (by decide)

/-- C6 (amended): the secret is write-only in the authorization sense — only
the owner can overwrite it, any other caller fails `Unauthorized` — but the
leaderboard account read path does return the stored `secretKey` to any
caller, so the secret's value is observable beyond derived-key
verification. -/
theorem claim_C6 (lb : Leaderboard) (caller : Nat) (s : List Nat) :
    (readLeaderboard lb).secretKey = lb.secretKey
    ∧ (caller ≠ lb.owner → setSecretKey lb caller s = .error .Unauthorized) := by
  refine ⟨rfl, fun hc => ?_⟩
  unfold setSecretKey
  rw [if_neg hc]

/-- Witness for C6 (amended) at `w0.lb` with non-owner caller 2. -/
theorem claim_C6_witness :
    (readLeaderboard w0.lb).secretKey = w0.lb.secretKey
    ∧ ((2 : Nat) ≠ w0.lb.owner →
        setSecretKey w0.lb 2 (List.replicate 32 1) = .error .Unauthorized) :=
  claim_C6 w0.lb 2 (List.replicate 32 1)

/-- C7: the `GameSession` record stores exactly the player identity, name,
start time and completion flag — in particular no derived game key (first
conjunct: any two sessions agreeing on those four fields are equal) — and
`log_score` verification recomputes the key from the stored start time, the
player identity and the leaderboard's current secret: two worlds agreeing on
those inputs accept exactly the same proof keys (second conjunct). -/
theorem claim_C7 :
    (∀ s₁ s₂ : GameSession, s₁.playerAddress = s₂.playerAddress →
        s₁.name = s₂.name → s₁.startTime = s₂.startTime →
        s₁.gameCompleted = s₂.gameCompleted → s₁ = s₂)
    ∧ (∀ (H : List Nat → List Nat) (w₁ w₂ : World) (caller score₁ score₂ : Nat)
        (proofKey : List Nat) (now₁ now₂ : Int) (s₁ s₂ : GameSession),
        getSession w₁.sessions caller = some s₁ →
        getSession w₂.sessions caller = some s₂ →
        s₁.startTime = s₂.startTime →
        s₁.gameCompleted = false → s₂.gameCompleted = false →
        now₁ - s₁.startTime ≤ 600 → now₂ - s₂.startTime ≤ 600 →
        w₁.lb.secretKey = w₂.lb.secretKey →
        ((∃ w', logScore H w₁ caller score₁ proofKey now₁ = .ok w') ↔
         (∃ w', logScore H w₂ caller score₂ proofKey now₂ = .ok w'))) := by
  constructor
  · intro s₁ s₂ ha hn ht hg
    cases s₁
    cases s₂
    simp only at ha hn ht hg
    rw [ha, hn, ht, hg]
  · intro H w₁ w₂ caller score₁ score₂ proofKey now₁ now₂ s₁ s₂ hs₁ hs₂ ht hg₁ hg₂
      he₁ he₂ hsec
    rw [logScore_ok_iff H w₁ caller score₁ proofKey now₁ s₁ hs₁ hg₁ he₁,
        logScore_ok_iff H w₂ caller score₂ proofKey now₂ s₂ hs₂ hg₂ he₂, ht, hsec]

/-- Witness for C7: both conjuncts applied at the concrete session `s1` and
world `w1` (against a copy of `w1` with a different fund ledger). -/
theorem claim_C7_witness :
    s1 = s1
    ∧ ((∃ w', logScore Hc w1 5 200 (List.replicate 32 7) 100 = .ok w') ↔
       (∃ w', logScore Hc { w1 with balances := [(5, 66)] } 5 300
          (List.replicate 32 7) 50 = .ok w')) :=
  ⟨claim_C7.1 s1 s1 rfl rfl rfl rfl,
   claim_C7.2 Hc w1 { w1 with balances := [(5, 66)] } 5 200 300
     (List.replicate 32 7) 100 50 s1 s1 (by rfl) (by rfl) rfl (by rfl) (by rfl)
     (by decide) (by decide) rfl⟩

end BonkArena
